import Mathlib

/-!
Verification of the Cook build tool's language core (scanner/parser/AST
evaluator written in Go, package `github.com/cozees/cook`).

This file shallowly embeds the parts of the source needed by the claims:
the dynamic value model and the `+`/comparison/logical operators
(`pkg/cook/ast`, operator file), the scope chain and loop bookkeeping of the
evaluation context (`pkg/cook/ast/context.go`), statement and expression
evaluation (`Binary.Evaluate`, `IncDec.Evaluate`, `BasicLit.Evaluate`,
`Ident.Evaluate`, `BlockStatement.Evaluate`, `AssignStatement.Evaluate`),
interval normalization (`Interval.Evaluate`), type casts
(`TypeCast.Evaluate`), target orchestration (`cook.ExecuteWithTarget`,
`Target.Execute` in `pkg/cook/ast/custom.go`) and the comparison-chaining
loop of `parser.parseBinaryExpr` (`pkg/cook/parser/parser.go`).

Modelling conventions:
* Go `int64` is embedded as `Int`; none of the claims exercises 64-bit
  overflow, so no wrap-around modelling is needed.
* Go `float64` is embedded as `Rat`: every float the claims touch is
  produced by exact integer conversion and addition, where IEEE-754 and
  rational arithmetic agree; rounding behaviour is outside the claims.
* Go's `(value any, kind reflect.Kind)` pairs are embedded as a single
  `Value` whose tag is the kind; the pair `(nil, reflect.Invalid)` that Go
  code passes around (e.g. a failed variable lookup) is `Value.VNil`.
* Fallible Go functions returning `(..., error)` become `Except String`.
* Side effects on the evaluation context become explicit state passing of
  `Ctx`.  `Ctx.trace` is ghost instrumentation (no Go counterpart): it
  records the name of every identifier the evaluator reads, which lets
  "evaluated exactly once" claims be stated.
* The `token` package is not among the sources (only its use sites are);
  the `Token` type below models the constructors and the groupings that the
  evaluator's range tests (`token.ADD < op && op < token.LAND`,
  `token.EQL <= op && op <= token.GEQ`) and `IsComparison` denote at those
  use sites.
-/

namespace Cook

/-- The subset of `reflect.Kind` tags the evaluator uses
(`Invalid, Int64, Float64, Bool, String, Slice, Map`). -/
inductive Kind where
  | KInvalid
  | KInt64
  | KFloat64
  | KBool
  | KString
  | KSlice
  | KMap
  deriving DecidableEq, Repr

/-- A dynamically typed Cook value (`any` + its `reflect.Kind`).  `VNil` is
the Go pair `(nil, reflect.Invalid)`. -/
inductive Value where
  | VNil
  | VInt (i : Int)
  | VFloat (q : Rat)
  | VBool (b : Bool)
  | VStr (s : String)
  | VArr (elems : List Value)
  | VMap (pairs : List (Value × Value))

/-- The `reflect.Kind` tag of a value. -/
def Value.kind : Value → Kind
  | .VNil => .KInvalid
  | .VInt _ => .KInt64
  | .VFloat _ => .KFloat64
  | .VBool _ => .KBool
  | .VStr _ => .KString
  | .VArr _ => .KSlice
  | .VMap _ => .KMap

/-- Operator and literal-kind tokens of the cook language.  The `token`
package is not part of the given sources; this models exactly the
constructors appearing at the embedded use sites. -/
inductive Token where
  | ADD | SUB | MUL | QUO | REM
  | LAND | LOR
  | EQL | LSS | GTR | NEQ | LEQ | GEQ
  | INC | DEC
  | ASSIGN | ADD_ASSIGN
  | INTEGER | FLOAT | BOOLEAN | STRING
  deriving DecidableEq, Repr

/-- `token.Token.IsComparison`: the comparison operators
`== < > != <= >=` (and `is`, which the embedding omits). -/
def Token.isComparison : Token → Bool
  | .EQL | .LSS | .GTR | .NEQ | .LEQ | .GEQ => true
  | _ => false

/-- The operator group `token.ADD < op && op < token.LAND` used by
`Binary.Evaluate` to dispatch to `numOperator`: the arithmetic operators
after `+`. -/
def Token.isNumGroup : Token → Bool
  | .SUB | .MUL | .QUO | .REM => true
  | _ => false

/-- One decimal digit. -/
def digitVal (c : Char) : Option Nat :=
  if c.isDigit then some (c.toNat - 48) else none

/-- A non-empty run of decimal digits, most significant first
(the digit-accumulation loop of `strconv.ParseInt`). -/
def parseDigits (cs : List Char) (acc : Nat) : Option Nat :=
  match cs with
  | [] => some acc
  | c :: rest =>
    match digitVal c with
    | some d => parseDigits rest (acc * 10 + d)
    | none => none

/-- `strconv.ParseInt(s, 10, 64)`: optional sign then decimal digits.
The 64-bit range check is omitted (values are unbounded here; no claim
exercises overflow). -/
def parseInt (s : String) : Option Int :=
  match s.data with
  | [] => none
  | '+' :: rest => if rest = [] then none else (parseDigits rest 0).map Int.ofNat
  | '-' :: rest => if rest = [] then none else (parseDigits rest 0).map (fun n => -(n : Int))
  | l => (parseDigits l 0).map Int.ofNat

/-- Fractional digits after a decimal point: the accumulated digits `acc`
divided by `10 ^ scale`, where `scale` counts the fractional digits. -/
def parseFrac (cs : List Char) (acc : Nat) (scale : Nat) (seenDigit : Bool) : Option Rat :=
  match cs with
  | [] => if seenDigit then some ((acc : Rat) / (10 : Rat) ^ scale) else none
  | c :: rest =>
    match digitVal c with
    | some d => parseFrac rest (acc * 10 + d) (scale + 1) true
    | none => none

/-- Digits with an optional single decimal point, as an exact rational. -/
def parseDecimal (cs : List Char) (acc : Nat) (seenDigit : Bool) : Option Rat :=
  match cs with
  | [] => if seenDigit then some (acc : Rat) else none
  | '.' :: rest => parseFrac rest acc 0 seenDigit
  | c :: rest =>
    match digitVal c with
    | some d => parseDecimal rest (acc * 10 + d) true
    | none => none

/-- `strconv.ParseFloat(s, 64)` restricted to plain decimal forms
(optional sign, digits, optional fraction).  Exponent, hexadecimal and
`Inf`/`NaN` forms are not modelled; no claim reaches them. -/
def parseFloat (s : String) : Option Rat :=
  match s.data with
  | [] => none
  | '+' :: rest => parseDecimal rest 0 false
  | '-' :: rest => (parseDecimal rest 0 false).map (fun q => -q)
  | l => parseDecimal l 0 false

/-- `strconv.ParseBool`: the accepted literal forms. -/
def parseBool (s : String) : Option Bool :=
  if s = "1" ∨ s = "t" ∨ s = "T" ∨ s = "true" ∨ s = "TRUE" ∨ s = "True" then some true
  else if s = "0" ∨ s = "f" ∨ s = "F" ∨ s = "false" ∨ s = "FALSE" ∨ s = "False" then some false
  else none

/-- `strconv.FormatInt(i, 10)`. -/
def formatInt (i : Int) : String := toString i

/-- `strconv.FormatFloat(f, g, -1, 64)`, abstracted: an exact decimal for
integral values, the rational rendering otherwise.  The claims use the
float textual form only symbolically. -/
def formatFloat (q : Rat) : String :=
  if q.den = 1 then toString q.num else toString q

/-- `strconv.FormatBool`. -/
def formatBool (b : Bool) : String := if b then "true" else "false"

/-- `convertToNum` (operator file): try `ParseInt`, then `ParseFloat`. -/
def convertToNum (s : String) : Except String Value :=
  match parseInt s with
  | some i => .ok (.VInt i)
  | none =>
    match parseFloat s with
    | some q => .ok (.VFloat q)
    | none => .error ("cannot parse " ++ s ++ " as a number")

/-- `convertToFloat`: Int64, Float64 and numeric String convert; everything
else is an error. -/
def convertToFloat (v : Value) : Except String Rat :=
  match v with
  | .VInt i => .ok (i : Rat)
  | .VFloat q => .ok q
  | .VStr s =>
    match parseFloat s with
    | some q => .ok q
    | none => .error ("cannot parse " ++ s ++ " as float")
  | _ => .error "value cannot cast/convert to float"

/-- `convertToInt`: Int64 and numeric String convert; a Float64 is refused
("will be cut when cast to integer"); everything else is an error. -/
def convertToInt (v : Value) : Except String Int :=
  match v with
  | .VInt i => .ok i
  | .VFloat _ => .error "value will be cut when cast to integer, use integer(number) instead"
  | .VStr s =>
    match parseInt s with
    | some i => .ok i
    | none => .error ("cannot parse " ++ s ++ " as integer")
  | _ => .error "value cannot cast to integer"

/-- `convertToString`: decimal/textual form of Int64, Float64, Bool and
String values (the `[]byte` fallback of the Go code is not modelled). -/
def convertToString (v : Value) : Except String String :=
  match v with
  | .VInt i => .ok (formatInt i)
  | .VFloat q => .ok (formatFloat q)
  | .VBool b => .ok (formatBool b)
  | .VStr s => .ok s
  | _ => .error "value cannot cast to string"

/-- The `opOnArray` tail of `addOperator`: `head` 0 prepends the left
scalar, 1 appends the right scalar, 2 concatenates. -/
def opOnArray (head : Nat) (vl vr : Value) : Except String Value :=
  match head, vl, vr with
  | 0, _, .VArr r => .ok (.VArr (vl :: r))
  | 1, .VArr l, _ => .ok (.VArr (l ++ [vr]))
  | 2, .VArr l, .VArr r => .ok (.VArr (l ++ r))
  | _, _, _ => .error "illegal state for array operation"

/-- `addOperator`: `+` on two evaluated operands.  Case order mirrors the
Go switch: left slice, right slice, either string, either float, both
int. -/
def addOperator (vl vr : Value) : Except String Value :=
  if vl.kind = .KSlice then
    if vr.kind = .KSlice then opOnArray 2 vl vr else opOnArray 1 vl vr
  else if vr.kind = .KSlice then opOnArray 0 vl vr
  else if vl.kind = .KString ∨ vr.kind = .KString then
    match convertToString vl with
    | .error e => .error e
    | .ok s1 =>
      match convertToString vr with
      | .error e => .error e
      | .ok s2 => .ok (.VStr (s1 ++ s2))
  else if vl.kind = .KFloat64 ∨ vr.kind = .KFloat64 then
    match convertToFloat vl with
    | .error e => .error e
    | .ok f1 =>
      match convertToFloat vr with
      | .error e => .error e
      | .ok f2 => .ok (.VFloat (f1 + f2))
  else
    match vl, vr with
    | .VInt a, .VInt b => .ok (.VInt (a + b))
    | _, _ => .error "operator + is not supported for the values"

/-- `numOperator`: `- * / %` with the Go case order (float group first,
then int group; the float group excludes `%`).  Division by zero is
returned as an error here; the Go code would panic (integers) or produce
an IEEE infinity (floats), neither of which any claim reaches. -/
def numOperator (op : Token) (vl vr : Value) : Except String Value :=
  if (vl.kind = .KFloat64 ∨ vr.kind = .KFloat64) ∧ (op = .SUB ∨ op = .MUL ∨ op = .QUO) then
    match convertToFloat vl with
    | .error e => .error e
    | .ok a =>
      match convertToFloat vr with
      | .error e => .error e
      | .ok b =>
        match op with
        | .SUB => .ok (.VFloat (a - b))
        | .MUL => .ok (.VFloat (a * b))
        | .QUO => if b = 0 then .error "float division by zero" else .ok (.VFloat (a / b))
        | _ => .error "operator is not supported for the values"
  else if (vl.kind = .KInt64 ∨ vr.kind = .KInt64) ∧ op.isNumGroup then
    match convertToInt vl with
    | .error e => .error e
    | .ok a =>
      match convertToInt vr with
      | .error e => .error e
      | .ok b =>
        match op with
        | .SUB => .ok (.VInt (a - b))
        | .MUL => .ok (.VInt (a * b))
        | .QUO => if b = 0 then .error "integer division by zero" else .ok (.VInt (a / b))
        | .REM => if b = 0 then .error "integer division by zero" else .ok (.VInt (a % b))
        | _ => .error "operator is not supported for the values"
  else .error "operator is not supported for the values"

/-- `strings.Compare` as a signed integer. -/
def stringCompare (a b : String) : Int :=
  match compare a b with
  | .lt => -1
  | .eq => 0
  | .gt => 1

/-- `logicOperator`: comparisons.  Mixed Int64/Float64 compare as floats;
otherwise both operands must have the same kind (Bool admits only
`==`/`!=`, String compares lexicographically, anything else admits only
`==`/`!=`, which the embedding restricts to the kinds it models). -/
def logicOperator (op : Token) (vl vr : Value) : Except String Value :=
  if (vl.kind = .KFloat64 ∨ vl.kind = .KInt64) ∧ (vr.kind = .KFloat64 ∨ vr.kind = .KInt64) then
    match convertToFloat vl with
    | .error e => .error e
    | .ok fl =>
      match convertToFloat vr with
      | .error e => .error e
      | .ok fr =>
        match op with
        | .EQL => .ok (.VBool (fl = fr))
        | .LSS => .ok (.VBool (fl < fr))
        | .GTR => .ok (.VBool (fr < fl))
        | .NEQ => .ok (.VBool (¬ fl = fr))
        | .LEQ => .ok (.VBool (fl ≤ fr))
        | .GEQ => .ok (.VBool (fr ≤ fl))
        | _ => .error "illegal state operator"
  else if vl.kind = vr.kind then
    match vl, vr with
    | .VBool a, .VBool b =>
      if op = .EQL then .ok (.VBool (a = b))
      else if op = .NEQ then .ok (.VBool (¬ a = b))
      else .error "operator is not supported for the values"
    | .VStr a, .VStr b =>
      let r := stringCompare a b
      match op with
      | .EQL => .ok (.VBool (r = 0))
      | .LSS => .ok (.VBool (r < 0))
      | .GTR => .ok (.VBool (r > 0))
      | .NEQ => .ok (.VBool (¬ r = 0))
      | .LEQ => .ok (.VBool (r ≤ 0))
      | .GEQ => .ok (.VBool (r ≥ 0))
      | _ => .error "operator is not supported for the values"
    | _, _ => .error "operator is not supported for the values"
  else .error "operator is not supported for the values"

/-- One `xScope` frame: its variable table, the `hasChild` flag (which no
code in the sources ever sets to `true`) and the per-scope return slot
(unused by the claims, kept for structural fidelity). -/
structure Frame where
  vars : List (String × Value)
  hasChild : Bool
  returnResult : Option Value

/-- A fresh empty scope frame, as allocated by `renewContext` and
`EnterBlock` (`hasChild` is left at its zero value `false`). -/
def emptyFrame : Frame := ⟨[], false, none⟩

/-- In-place update of an existing entry of a variable table
(`iv.value, iv.kind = value, kind`). -/
def updateVar (vars : List (String × Value)) (name : String) (v : Value) :
    List (String × Value) :=
  match vars with
  | [] => []
  | (k, w) :: rest =>
    if k = name then (k, v) :: rest else (k, w) :: updateVar rest name v

/-- Lookup in a single frame's variable table. -/
def lookupVar (vars : List (String × Value)) (name : String) : Option Value :=
  match vars with
  | [] => none
  | (k, w) :: rest => if k = name then some w else lookupVar rest name

/-- `xScope.GetVariable` over the parent chain (head of the list is the
current scope, last element is the root).  When no scope holds the name the
Go code jumps to `tryEnv`, reads `os.Getenv(name)` into its named return
values — and then executes the unconditional `return nil, 0, false`, which
discards them; the environment lookup therefore never reaches the caller.
The dead computation is kept as the unused `envValue` binding. -/
def scopeGetVariable (env : List (String × String)) (frames : List Frame)
    (name : String) : Value × Bool :=
  match frames with
  | [] => (.VNil, false)
  | f :: rest =>
    match lookupVar f.vars name with
    | some v => (v, false)
    | none =>
      match rest with
      | [] =>
        let envValue := (lookupVar (env.map (fun p => (p.1, .VStr p.2))) name)
        let _ := envValue
        (.VNil, false)
      | _ :: _ =>
        let (v, fromEnv) := scopeGetVariable env rest name
        if v.kind ≠ .KInvalid then (v, fromEnv)
        else
          let envValue := (lookupVar (env.map (fun p => (p.1, .VStr p.2))) name)
          let _ := envValue
          (.VNil, false)

/-- `xScope.SetVariable` over the parent chain.  Returns the updated chain
and the Go boolean result.  If the current frame holds the name it is
updated in place; otherwise with `hasChild` set the call only delegates to
the parent; otherwise the parent chain is consulted first and the variable
is created here only when that fails — and since `hasChild` is never true
in the sources, the root always reports success, so a brand-new variable is
always created in the **root** frame.  (The `bubble` callbacks are `nil` at
every call site the claims reach and are omitted; the Go panic on an
invalid kind is unreachable from the embedded call sites.) -/
def scopeSetVariable (frames : List Frame) (name : String) (v : Value) :
    List Frame × Bool :=
  match frames with
  | [] => ([], false)
  | f :: rest =>
    if (lookupVar f.vars name).isSome then
      ({ f with vars := updateVar f.vars name v } :: rest, true)
    else if f.hasChild then
      match rest with
      | [] => (f :: rest, false)
      | _ :: _ =>
        let (rest', ok) := scopeSetVariable rest name v
        (f :: rest', ok)
    else
      match rest with
      | [] => ({ f with vars := f.vars ++ [(name, v)] } :: rest, true)
      | _ :: _ =>
        let (rest', ok) := scopeSetVariable rest name v
        if ok then (f :: rest', true)
        else ({ f with vars := f.vars ++ [(name, v)] } :: rest', true)

/-- The evaluation context `xContext`: current scope chain, loop label and
index stacks, pending break/continue indices (`-1` = none) — plus the
process environment and the output streams made explicit, and the ghost
`trace` instrumentation recording every identifier read. -/
structure Ctx where
  frames : List Frame
  env : List (String × String)
  loopsLabel : List String
  loops : List Int
  breakAt : Int
  continueAt : Int
  stderrLog : List String
  stdoutLog : List String
  trace : List String

/-- A fresh context over the given environment (`cook.renewContext`). -/
def renewContext (env : List (String × String)) : Ctx :=
  ⟨[emptyFrame], env, [], [], -1, -1, [], [], []⟩

/-- `Context.GetVariable`. -/
def Ctx.getVariable (xc : Ctx) (name : String) : Value × Bool :=
  scopeGetVariable xc.env xc.frames name

/-- `Context.SetVariable`. -/
def Ctx.setVariable (xc : Ctx) (name : String) (v : Value) : Ctx :=
  { xc with frames := (scopeSetVariable xc.frames name v).1 }

/-- `xContext.EnterBlock`: push a child scope; for a loop additionally push
the label and the loop index (the label-stack depth after the push, minus
one). -/
def enterBlock (xc : Ctx) (forLoop : Bool) (label : String) : Ctx × Int :=
  let xc := { xc with frames := emptyFrame :: xc.frames }
  if forLoop then
    let labels := xc.loopsLabel ++ [label]
    let loopIndex : Int := (labels.length : Int) - 1
    ({ xc with loopsLabel := labels, loops := xc.loops ++ [loopIndex] }, loopIndex)
  else (xc, -1)

/-- `xContext.ExitBlock`: for a loop (`0 ≤ index`) truncate the label stack
to `index` and drop the top loop index; always pop the scope frame (Go
panics when the root would be popped; the embedded call sites keep the
stack discipline). -/
def exitBlock (xc : Ctx) (index : Int) : Ctx :=
  let xc :=
    if 0 ≤ index then
      { xc with loopsLabel := xc.loopsLabel.take index.toNat,
                loops := xc.loops.dropLast }
    else xc
  { xc with frames := xc.frames.tail }

/-- `xContext.currentLoop`: `-1` when no loop is active, else the top of the
loop-index stack. -/
def currentLoop (xc : Ctx) : Int :=
  match xc.loops.getLast? with
  | some l => l
  | none => -1

/-- `xContext.ShouldBreak`. -/
def shouldBreak (xc : Ctx) (fromLoop : Bool) : Bool :=
  if 0 < xc.loopsLabel.length then
    let loop := currentLoop xc
    decide ((0 ≤ xc.breakAt ∧ xc.breakAt ≤ loop) ∨
      (0 ≤ xc.continueAt ∧
        (xc.continueAt < loop ∨ (fromLoop = false ∧ xc.continueAt = loop))))
  else false

/-- `xContext.ResetBreakContinue`. -/
def resetBreakContinue (xc : Ctx) : Ctx :=
  { xc with breakAt := -1, continueAt := -1 }

/-- Expression nodes of the AST fragment the claims exercise:
literal (`BasicLit`, with its literal text and kind token), identifier
(`Ident`), binary operator (`Binary`) and increment/decrement (`IncDec`,
whose operand is a node, specialised by the evaluator when it is an
identifier). -/
inductive Expr where
  | basicLit (lit : String) (kind : Token)
  | ident (name : String)
  | binary (op : Token) (l r : Expr)
  | incDec (op : Token) (x : Expr)
  deriving Repr

/-- The operator dispatch inside `Binary.Evaluate` once both operands are
evaluated: `+` to `addOperator`, the remaining arithmetic group
(`token.ADD < Op && Op < token.LAND`) to `numOperator`, the comparison
group (`token.EQL <= Op && Op <= token.GEQ`) to `logicOperator`, and
`&&`/`||` on two booleans; anything else is unsupported. -/
def binaryDispatch (op : Token) (vl vr : Value) : Except String Value :=
  if op = .ADD then addOperator vl vr
  else if op.isNumGroup then numOperator op vl vr
  else if op.isComparison then logicOperator op vl vr
  else if vl.kind = vr.kind ∧ vl.kind = .KBool then
    match op, vl, vr with
    | .LAND, .VBool a, .VBool b => .ok (.VBool (a && b))
    | .LOR, .VBool a, .VBool b => .ok (.VBool (a || b))
    | _, _, _ => .error "unsupported operator on the values"
  else .error "unsupported operator on the values"

/-- The value computation of `IncDec.Evaluate`: the ±1 step applied to a
Float64, an Int64, or a numeric String (converted by `convertToNum` and
retried); any other kind is unsupported. -/
def incDecStep (op : Token) (v : Value) : Except String Value :=
  let step : Int := match op with
    | .INC => 1
    | .DEC => -1
    | _ => 0
  match v with
  | .VFloat f => .ok (.VFloat (f + (step : Rat)))
  | .VInt i => .ok (.VInt (i + step))
  | .VStr s =>
    match convertToNum s with
    | .error e => .error e
    | .ok (.VFloat f) => .ok (.VFloat (f + (step : Rat)))
    | .ok (.VInt i) => .ok (.VInt (i + step))
    | .ok _ => .error "unsupported operator on the operand kind"
  | _ => .error "unsupported operator on the operand kind"

/-- Evaluate an expression (`Node.Evaluate`), threading the context.

* `BasicLit.Evaluate` parses the literal text by its kind token.
* `Ident.Evaluate` reads the variable through `Context.GetVariable`,
  discarding the `fromEnv` flag, and never fails (a missing variable
  yields the `(nil, Invalid)` value `VNil`); the ghost `trace` records the
  read.
* `Binary.Evaluate` evaluates the left operand, then — regardless of the
  operator and of the left value — the right operand, then dispatches.
* `IncDec.Evaluate` evaluates the operand, adds the ±1 step (a numeric
  string is converted first and retried), and, via the deferred block,
  stores the *returned* value back when the operand is an identifier and no
  error occurred. -/
def evalExpr : Expr → Ctx → Except String Value × Ctx
  | .basicLit lit kind, ctx =>
    match kind with
    | .INTEGER =>
      match parseInt lit with
      | some i => (.ok (.VInt i), ctx)
      | none => (.error ("invalid integer literal " ++ lit), ctx)
    | .FLOAT =>
      match parseFloat lit with
      | some q => (.ok (.VFloat q), ctx)
      | none => (.error ("invalid float literal " ++ lit), ctx)
    | .BOOLEAN =>
      match parseBool lit with
      | some b => (.ok (.VBool b), ctx)
      | none => (.error ("invalid boolean literal " ++ lit), ctx)
    | .STRING => (.ok (.VStr lit), ctx)
    | _ => (.error ("invalid literal value " ++ lit), ctx)
  | .ident name, ctx =>
    let (v, _) := ctx.getVariable name
    (.ok v, { ctx with trace := ctx.trace ++ [name] })
  | .binary op l r, ctx =>
    match evalExpr l ctx with
    | (.error e, ctx') => (.error e, ctx')
    | (.ok vl, ctx') =>
      match evalExpr r ctx' with
      | (.error e, ctx'') => (.error e, ctx'')
      | (.ok vr, ctx'') => (binaryDispatch op vl vr, ctx'')
  | .incDec op x, ctx =>
    match evalExpr x ctx with
    | (.error e, ctx') => (.error e, ctx')
    | (.ok v, ctx') =>
      match incDecStep op v with
      | .error e => (.error e, ctx')
      | .ok v' =>
        match x with
        | .ident n => (.ok v', ctx'.setVariable n v')
        | _ => (.ok v', ctx')

/-- Statement nodes of the fragment the claims exercise: assignment to an
identifier and a bare expression statement (`ExprWrapperStatement`). -/
inductive Stmt where
  | assign (name : String) (op : Token) (value : Expr)
  | exprWrapper (x : Expr)
  deriving Repr

/-- `AssignStatement.Evaluate` restricted to an `Ident` target and the
`=` / `+=` operators (the special `Transformation`/`Call`/`MergeMap` and
index-target paths are outside the claims).  `=` evaluates the right side
and stores it via `Ident.Set` (which rejects a `nil` value); `+=` reads the
current value through `Ident.Evaluate`, fails when it is `nil`, combines
with `addOperator` and stores the sum. -/
def evalStmt : Stmt → Ctx → Ctx × Option String
  | .assign name op value, ctx =>
    match evalExpr value ctx with
    | (.error e, ctx') => (ctx', some e)
    | (.ok i, ctx') =>
      match op with
      | .ASSIGN =>
        if i.kind = .KInvalid then (ctx', some ("assign nil value to variable " ++ name))
        else (ctx'.setVariable name i, none)
      | .ADD_ASSIGN =>
        let v := (ctx'.getVariable name).1
        let ctx'' := { ctx' with trace := ctx'.trace ++ [name] }
        if v.kind = .KInvalid then (ctx'', some ("variable " ++ name ++ " does not exist"))
        else
          match addOperator v i with
          | .error e => (ctx'', some e)
          | .ok sum => (ctx''.setVariable name sum, none)
      | _ => (ctx', some "unsupported assign operator in the embedding")
  | .exprWrapper x, ctx =>
    match evalExpr x ctx with
    | (.error e, ctx') => (ctx', some e)
    | (.ok _, ctx') => (ctx', none)

/-- `BlockStatement.Evaluate`: run the statements in order; stop at the
first error, or silently stop after a statement when
`ShouldBreak(fromLoop := false)` reports a pending break/continue. -/
def evalBlock : List Stmt → Ctx → Ctx × Option String
  | [], ctx => (ctx, none)
  | s :: rest, ctx =>
    match evalStmt s ctx with
    | (ctx', some e) => (ctx', some e)
    | (ctx', none) =>
      if shouldBreak ctx' false then (ctx', none) else evalBlock rest ctx'

/-- A declared target: its name, the `all: *` marker and its statement
block. -/
structure Target where
  name : String
  all : Bool
  insts : List Stmt

/-- The program (`cook`): ordered declared targets, the `initialize` and
`finalize` target lists, the optional `all` target and the top-level
statement block. -/
structure CookProgram where
  targets : List Target
  initializeTargets : List Target
  finalizeTargets : List Target
  targetAll : Option Target
  insts : List Stmt

/-- `xContext.GetTarget` (via the name→index map over `targetIndexes`). -/
def getTarget (c : CookProgram) (name : String) : Option Target :=
  c.targets.find? (fun t => t.name = name)

/-- Bind the positional arguments `"1", "2", ...` of a target invocation,
then `"0"` to the argument count (`Target.Execute`'s loop; the claims
always invoke targets with `nil` arguments, so only the `"0"` binding
fires). -/
def bindTargetArgs (ctx : Ctx) (args : List Value) : Ctx :=
  let ctx := (args.enum.foldl
    (fun acc p => acc.setVariable (toString (p.1 + 1)) p.2) ctx)
  ctx.setVariable "0" (.VInt (args.length : Int))

/-- `Target.Execute`: enter a fresh (non-loop) scope, bind the arguments,
run the target's block, and — via the deferred call — exit the scope
whether or not the block failed. -/
def targetExecute (t : Target) (ctx : Ctx) (args : List Value) :
    Ctx × Option String :=
  let (ctx, _) := enterBlock ctx false ""
  let ctx := bindTargetArgs ctx args
  let (ctx, err) := evalBlock t.insts ctx
  (exitBlock ctx (-1), err)

/-- The `initialize` loop of `ExecuteWithTarget`: run each initialize
target in order, stopping at the first error (the deferred finalize loop
is *not yet registered* at this point in the Go code). -/
def runInits (inits : List Target) (ctx : Ctx) : Ctx × Option String :=
  match inits with
  | [] => (ctx, none)
  | t :: rest =>
    match targetExecute t ctx [] with
    | (ctx', some e) => (ctx', some e)
    | (ctx', none) => runInits rest ctx'

/-- The deferred finalize loop of `ExecuteWithTarget`: every finalize
target runs; a failure is only written to the standard error stream as a
warning and the loop continues. -/
def runFinalize (finals : List Target) (ctx : Ctx) : Ctx :=
  match finals with
  | [] => ctx
  | f :: rest =>
    match targetExecute f ctx [] with
    | (ctx', some e) =>
      runFinalize rest
        { ctx' with stderrLog := ctx'.stderrLog ++
            ["Error while executing finalize target " ++ f.name ++ ": " ++ e] }
    | (ctx', none) => runFinalize rest ctx'

/-- The requested-targets loop of `ExecuteWithTarget` (the branch taken
when the selection is not exactly `all`): the special name `all` among
others only prints a warning to standard output; otherwise a scope is
entered, the target looked up and executed, and the scope exited — except
on failure, where the Go code returns immediately without the matching
`ExitBlock`.  A missing target name would make the Go code dereference a
nil `*Target` and panic; the embedding returns a distinguished error. -/
def runTargets (c : CookProgram) (names : List String) (ctx : Ctx) :
    Ctx × Option String :=
  match names with
  | [] => (ctx, none)
  | name :: rest =>
    if name = "all" then
      runTargets c rest
        { ctx with stdoutLog := ctx.stdoutLog ++
            ["warning: target all was include among other, it won't be executed."] }
    else
      let (ctx, _) := enterBlock ctx false ""
      match getTarget c name with
      | none => (ctx, some "nil target: the Go code panics here")
      | some t =>
        match targetExecute t ctx [] with
        | (ctx', some e) => (ctx', some e)
        | (ctx', none) => runTargets c rest (exitBlock ctx' (-1))

/-- The loop over every declared target used for `all: *`. -/
def runEachTarget (ts : List Target) (ctx : Ctx) : Ctx × Option String :=
  match ts with
  | [] => (ctx, none)
  | t :: rest =>
    let (ctx, _) := enterBlock ctx false ""
    match targetExecute t ctx [] with
    | (ctx', some e) => (ctx', some e)
    | (ctx', none) => runEachTarget rest (exitBlock ctx' (-1))

/-- The `all` branch of `ExecuteWithTarget`: enter a scope; if the `all`
target was declared with the run-everything marker, run every declared
target (each in its own scope), otherwise run the `all` target itself;
exit the scope on success (the Go failure paths return without it). -/
def runAllBranch (c : CookProgram) (ctx : Ctx) : Ctx × Option String :=
  let (ctx, _) := enterBlock ctx false ""
  match c.targetAll with
  | none => (ctx, some "target all is not defined in any Cookfile")
  | some ta =>
    if ta.all then
      match runEachTarget c.targets ctx with
      | (ctx', some e) => (ctx', some e)
      | (ctx', none) => (exitBlock ctx' (-1), none)
    else
      match targetExecute ta ctx [] with
      | (ctx', some e) => (ctx', some e)
      | (ctx', none) => (exitBlock ctx' (-1), none)

/-- The requested-selection dispatch of `ExecuteWithTarget`: the special
selection of exactly `all` takes the `all` branch, anything else the
requested-targets loop. -/
def runSelection (c : CookProgram) (names : List String) (ctx : Ctx) :
    Ctx × Option String :=
  if names = ["all"] then runAllBranch c ctx else runTargets c names ctx

/-- `cook.ExecuteWithTarget`: build a fresh context, bind the caller
arguments into the top scope, run the top-level statements, run the
initialize targets (failures in either return at once — the finalize
`defer` is registered only after them), then run the requested selection;
from that point the deferred finalize loop runs on *every* return path,
and the function's error result is whatever the main run produced — a
finalize failure never replaces it. -/
def executeWithTarget (c : CookProgram) (env : List (String × String))
    (pargs : List (String × Value)) (names : List String) :
    Ctx × Option String :=
  let ctx := renewContext env
  let ctx := pargs.foldl (fun acc p => acc.setVariable p.1 p.2) ctx
  match evalBlock c.insts ctx with
  | (ctx, some e) => (ctx, some e)
  | (ctx, none) =>
    match runInits c.initializeTargets ctx with
    | (ctx, some e) => (ctx, some e)
    | (ctx, none) =>
      let (ctx, err) := runSelection c names ctx
      (runFinalize c.finalizeTargets ctx, err)

/-- The result of `Interval.Evaluate`: a Go `[]int64` or `[]float64`
(empty, or the `[start, end, step]` triple). -/
inductive IntervalVal where
  | ints (l : List Int)
  | floats (l : List Rat)

/-- The lossy float conversion at `fa, _ := convertToFloat(...)` — the Go
code discards the error, leaving the zero value; only Int64/Float64 reach
it in the float branch. -/
def toFloatLossy (v : Value) : Rat :=
  match convertToFloat v with
  | .ok q => q
  | .error _ => 0

/-- The lossy int conversion at `st, _ := convertToInt(step, stk)` — the
error is discarded, so a Float64 step silently becomes 0. -/
def toIntLossy (v : Value) : Int :=
  match convertToInt v with
  | .ok i => i
  | .error _ => 0

/-- The integer branch of `Interval.Evaluate` after both endpoints and the
step are known: the empty check for an exclusive endpoint with equal
bounds, then the inward adjustment of an exclusive start (using the raw
orientation) and of an exclusive end (using the orientation of the
*adjusted* start against the raw end). -/
def intervalNormInt (ia ib st : Int) (aInclude bInclude : Bool) : List Int :=
  if (aInclude = false ∨ bInclude = false) ∧ ia = ib then []
  else
    let ia' := if aInclude then ia else (if ia > ib then ia - st else ia + st)
    let ib' := if bInclude then ib else (if ia' > ib then ib + st else ib - st)
    [ia', ib', st]

/-- The float branch of `Interval.Evaluate`, identical in structure to the
integer branch. -/
def intervalNormFloat (fa fb st : Rat) (aInclude bInclude : Bool) : List Rat :=
  if (aInclude = false ∨ bInclude = false) ∧ fa = fb then []
  else
    let fa' := if aInclude then fa else (if fa > fb then fa - st else fa + st)
    let fb' := if bInclude then fb else (if fa' > fb then fb + st else fb - st)
    [fa', fb', st]

/-- `Interval.Evaluate`: evaluate `A`, `B` and the optional step, convert
numeric strings, require numeric kinds and an Int64/Float64 step, and
normalize through the float branch when either endpoint is a float, the
integer branch otherwise. -/
def intervalEvaluate (a b : Expr) (step? : Option Expr)
    (aInclude bInclude : Bool) (ctx : Ctx) :
    Except String IntervalVal × Ctx :=
  match evalExpr a ctx with
  | (.error e, ctx₁) => (.error e, ctx₁)
  | (.ok av, ctx₁) =>
    match evalExpr b ctx₁ with
    | (.error e, ctx₂) => (.error e, ctx₂)
    | (.ok bv, ctx₂) =>
      let a' : Except String Value :=
        if av.kind = .KString then
          match av with
          | .VStr s => convertToNum s
          | _ => .ok av
        else .ok av
      match a' with
      | .error e => (.error e, ctx₂)
      | .ok av =>
        let b' : Except String Value :=
          if bv.kind = .KString then
            match bv with
            | .VStr s => convertToNum s
            | _ => .ok bv
          else .ok bv
        match b' with
        | .error e => (.error e, ctx₂)
        | .ok bv =>
          let stepRes : Except String Value × Ctx :=
            match step? with
            | none => (.ok (.VInt 1), ctx₂)
            | some stE =>
              match evalExpr stE ctx₂ with
              | (.error e, ctx₃) => (.error e, ctx₃)
              | (.ok sv, ctx₃) =>
                if sv.kind ≠ .KInt64 ∧ sv.kind ≠ .KFloat64 then
                  (.error "step value must be greater than 0", ctx₃)
                else (.ok sv, ctx₃)
          match stepRes with
          | (.error e, ctx₃) => (.error e, ctx₃)
          | (.ok step, ctx₃) =>
            if (av.kind ≠ .KFloat64 ∧ av.kind ≠ .KInt64) ∨
               (bv.kind ≠ .KFloat64 ∧ bv.kind ≠ .KInt64) then
              (.error "interval required integer or float value", ctx₃)
            else if av.kind = .KFloat64 ∨ bv.kind = .KFloat64 then
              let fa := toFloatLossy av
              let fb := toFloatLossy bv
              let st := toFloatLossy step
              (.ok (.floats (intervalNormFloat fa fb st aInclude bInclude)), ctx₃)
            else
              let ia := match av with | .VInt i => i | _ => 0
              let ib := match bv with | .VInt i => i | _ => 0
              let st := toIntLossy step
              (.ok (.ints (intervalNormInt ia ib st aInclude bInclude)), ctx₃)

/-- The integer range loop of `ForStatement.Evaluate` as the sequence of
loop-variable values: counting down (`i := a; i >= b; i -= st`) when
`a > b`, counting up (`i := a; i <= b; i += st`) otherwise; a slice that
is not a `[start, end, step]` triple (the empty interval) iterates
nothing.  The recursion is bounded by the distance plus one, which the
loop can never exceed when `st ≥ 1`; a non-positive step would make the Go
loop diverge, which no claim reaches. -/
def intRangeUp (b st : Int) : Nat → Int → List Int
  | 0, _ => []
  | fuel + 1, i => if i ≤ b then i :: intRangeUp b st fuel (i + st) else []

/-- Downward companion of `intRangeUp`. -/
def intRangeDown (b st : Int) : Nat → Int → List Int
  | 0, _ => []
  | fuel + 1, i => if b ≤ i then i :: intRangeDown b st fuel (i - st) else []

/-- Iteration sequence of a normalized integer interval triple. -/
def intervalIterInts (rg : List Int) : List Int :=
  match rg with
  | [a, b, st] =>
    if a > b then intRangeDown b st ((a - b).toNat + 1) a
    else intRangeUp b st ((b - a).toNat + 1) a
  | _ => []

/-- `TypeCast.Evaluate`.  The operand's evaluation error is discarded by
the Go code (`iv, ik, _ := tc.X.Evaluate(ctx)`).  An identity cast
returns the operand unchanged.  In the Int64 arm, the Go code tests
`k == reflect.String` — `k` being the function's *named return*, still at
its zero value `reflect.Invalid` — instead of `ik`, so the
string-to-integer branch can never be taken; the comparison is embedded
literally (`Kind.KInvalid = Kind.KString`), keeping the branch dead. -/
def typeCastEvaluate (x : Expr) (tk : Kind) (ctx : Ctx) :
    Except String Value × Ctx :=
  let (r, ctx') := evalExpr x ctx
  let iv : Value := match r with | .ok v => v | .error _ => .VNil
  let ik := iv.kind
  if tk ≠ ik then
    match tk with
    | .KInt64 =>
      if ik = .KFloat64 then
        match iv with
        | .VFloat q => (.ok (.VInt (if q ≥ 0 then q.floor else q.ceil)), ctx')
        | _ => (.error "cannot cast the value", ctx')
      else if Kind.KInvalid = Kind.KString then
        match iv with
        | .VStr s =>
          match parseInt s with
          | some i => (.ok (.VInt i), ctx')
          | none => (.error ("cannot cast " ++ s ++ " to type int64"), ctx')
        | _ => (.error "cannot cast the value to type int64", ctx')
      else (.error "cannot cast the value to type int64", ctx')
    | .KFloat64 =>
      if ik = .KInt64 then
        match iv with
        | .VInt i => (.ok (.VFloat (i : Rat)), ctx')
        | _ => (.error "cannot cast the value", ctx')
      else if ik = .KString then
        match iv with
        | .VStr s =>
          match parseFloat s with
          | some q => (.ok (.VFloat q), ctx')
          | none => (.error ("cannot cast " ++ s ++ " to type float64"), ctx')
        | _ => (.error "cannot cast the value to type float64", ctx')
      else (.error "cannot cast the value to type float64", ctx')
    | .KBool =>
      if ik = .KString then
        match iv with
        | .VStr s =>
          match parseBool s with
          | some bv => (.ok (.VBool bv), ctx')
          | none => (.error ("cannot cast " ++ s ++ " to type bool"), ctx')
        | _ => (.error "cannot cast the value to type bool", ctx')
      else (.error "cannot cast the value to type bool", ctx')
    | .KString =>
      match iv with
      | .VInt i => (.ok (.VStr (formatInt i)), ctx')
      | .VFloat q => (.ok (.VStr (formatFloat q)), ctx')
      | .VBool bv => (.ok (.VStr (formatBool bv)), ctx')
      | _ => (.error "cannot cast the value to type string", ctx')
    | _ => (.error "cannot cast the value", ctx')
  else (.ok iv, ctx')

/-- Whether the head of the remaining operator list is a comparison — the
parser's `p.cTok.IsComparison()` lookahead after an operand. -/
def nextIsComparison (rest : List (Token × Expr)) : Bool :=
  match rest with
  | (op, _) :: _ => op.isComparison
  | [] => false

/-- The operator loop of `parser.parseBinaryExpr`, specialised to a chain
of binary operators at one precedence level whose right operands have
already been parsed (for a chain of comparisons, the recursive
`parseBinaryExpr(isChaining := true, ...)` call returns the bare operand).
`x` is the expression built so far and `prev` the saved raw right operand
(`prevNode`/`ly` in the Go code): when a comparison's left side was itself
a comparison, the pending operand is re-used as the left side of the new
comparison and the two are joined with `&&` — sharing the operand node
between the two comparisons. -/
def parseChainLoop (x : Expr) (prev : Option Expr) :
    List (Token × Expr) → Expr
  | [] => x
  | (op, y) :: rest =>
    let ly := y
    let yAndOp : Expr × Token :=
      match prev with
      | some p => (.binary op p y, .LAND)
      | none => (y, op)
    let x' := Expr.binary yAndOp.2 x yAndOp.1
    let prev' := if op.isComparison && nextIsComparison rest then some ly else none
    parseChainLoop x' prev' rest

/-- Parse a chain `x op₁ y₁ op₂ y₂ ...` with the comparison-chaining rule
of `parseBinaryExpr`. -/
def parseChain (x : Expr) (ops : List (Token × Expr)) : Expr :=
  parseChainLoop x none ops

/-- A root-only context with `x` bound to `4`. -/
def ctxX4 : Ctx := (renewContext []).setVariable "x" (.VInt 4)

/-- A root-only context with `x` bound to `0`. -/
def ctxX0 : Ctx := (renewContext []).setVariable "x" (.VInt 0)

/-- A root-only context with `b` bound to `5`. -/
def ctxB5 : Ctx := (renewContext []).setVariable "b" (.VInt 5)

/-- The chain `2 < x++ < 3` as the parser builds it. -/
def chainSideEffect : Expr :=
  parseChain (.basicLit "2" .INTEGER)
    [(.LSS, .incDec .INC (.ident "x")), (.LSS, .basicLit "3" .INTEGER)]

/-- The chain `2 < b < 3` as the parser builds it. -/
def chainIdentB : Expr :=
  parseChain (.basicLit "2" .INTEGER)
    [(.LSS, .ident "b"), (.LSS, .basicLit "3" .INTEGER)]

/-- The chain `2 < 5 < 3` as the parser builds it. -/
def chain253 : Expr :=
  parseChain (.basicLit "2" .INTEGER)
    [(.LSS, .basicLit "5" .INTEGER), (.LSS, .basicLit "3" .INTEGER)]

/-- A statement whose evaluation fails: `y = 1 && 2` (logical AND on two
integers is unsupported). -/
def failStmt : Stmt :=
  .assign "y" .ASSIGN (.binary .LAND (.basicLit "1" .INTEGER) (.basicLit "2" .INTEGER))

/-- A statement whose evaluation succeeds: `z = 7`. -/
def okStmt : Stmt := .assign "z" .ASSIGN (.basicLit "7" .INTEGER)

/-- A program with one failing requested target and two finalize targets,
the first of which itself fails. -/
def progFinalize : CookProgram :=
  ⟨[⟨"build", false, [failStmt]⟩], [],
   [⟨"finalize", false, [failStmt]⟩, ⟨"finalize", false, [okStmt]⟩], none, []⟩

/-- A program with a single target that assigns a brand-new variable. -/
def progLocal : CookProgram :=
  ⟨[⟨"t", false, [.assign "x" .ASSIGN (.basicLit "42" .INTEGER)]⟩],
   [], [], none, []⟩

/-- A context inside two nested loops with a pending break at the outer
loop (index 0). -/
def ctxBreakOuter : Ctx :=
  ⟨[emptyFrame], [], ["", ""], [0, 1], 0, -1, [], [], []⟩

/-- A context inside one loop with a pending continue at that loop
(index 0) and no pending break. -/
def ctxContinueHere : Ctx :=
  ⟨[emptyFrame], [], [""], [0], -1, 0, [], [], []⟩

/-- Normalization of an integer interval as claim C4 words it: empty when
an endpoint is exclusive and the bounds coincide; otherwise each exclusive
endpoint is moved inward by one step in the direction of iteration (from
`A` toward `B`). -/
def claimNormInt (a b st : Int) (aInclude bInclude : Bool) : List Int :=
  if (aInclude = false ∨ bInclude = false) ∧ a = b then []
  else
    let dir : Int := if a > b then -1 else 1
    [if aInclude then a else a + dir * st,
     if bInclude then b else b - dir * st, st]

/-- Float companion of `claimNormInt`. -/
def claimNormFloat (a b st : Rat) (aInclude bInclude : Bool) : List Rat :=
  if (aInclude = false ∨ bInclude = false) ∧ a = b then []
  else
    let dir : Rat := if a > b then -1 else 1
    [if aInclude then a else a + dir * st,
     if bInclude then b else b - dir * st, st]

/-- A root-only context binding the float bounds `lo = 1/2`, `hi = 5/2`
and the float step `st = 1/2`. -/
def ctxFloat : Ctx :=
  (((renewContext []).setVariable "lo" (.VFloat (1 / 2))).setVariable
    "hi" (.VFloat (5 / 2))).setVariable "st" (.VFloat (1 / 2))

/-!  ## Theorems  -/

/-- Claim C8 (code bug): variable lookup is specified to fall back to the
process environment, returning the environment text as a `String`-kinded
value; but `xScope.GetVariable` ends its `tryEnv` block with the
unconditional `return nil, 0, false`, which overwrites the named return
values just assigned from `os.Getenv` — so even with `HOME` set to a
non-empty string and unbound in every scope, lookup yields the nil/Invalid
value and `fromEnv = false`, and `Ident.Evaluate` (whose own comment
promises the environment value) sees nil. -/
theorem getVariable_env_fallback_dead :
    scopeGetVariable [("HOME", "/root")] [emptyFrame] "HOME" = (.VNil, false) ∧
    (evalExpr (.ident "HOME") (renewContext [("HOME", "/root")])).1 = .ok .VNil :=
  ⟨rfl, rfl⟩

/-- Claim C9 (code bug): `TypeCast.Evaluate` is specified to parse a valid
decimal string when casting to integer, but the branch guard compares the
still-zero named return `k` with `reflect.String` instead of the operand
kind `ik`, so the cast of the valid decimal string "12" to integer fails;
the identity cast (here string-to-string) is indeed a no-op. -/
theorem typeCast_string_to_int_unreachable :
    (typeCastEvaluate (.basicLit "12" .STRING) .KInt64 (renewContext [])).1 =
      .error "cannot cast the value to type int64" ∧
    (typeCastEvaluate (.basicLit "12" .STRING) .KString (renewContext [])).1 =
      .ok (.VStr "12") ∧
    parseInt "12" = some 12 :=
  ⟨rfl, rfl, rfl⟩

/-- Claim C7 (code bug): a requested target is specified to run in a
nested scope whose locals do not leak; but because `xScope.hasChild` is
never set, `SetVariable` creates every brand-new variable in the root
scope, so after `ExecuteWithTarget` returns, the variable `x` first
assigned inside target `t`'s body (and even the argument-count binding
`"0"`) sits in the global scope. -/
theorem executeWithTarget_target_scope_leak :
    (executeWithTarget progLocal [] [] ["t"]).2 = none ∧
    (executeWithTarget progLocal [] [] ["t"]).1.frames =
      [⟨[("0", .VInt 0), ("x", .VInt 42)], false, none⟩] ∧
    ((executeWithTarget progLocal [] [] ["t"]).1.getVariable "x").1 = .VInt 42 :=
  ⟨rfl, rfl, rfl⟩

/-- Claim C5 (amended): for the binary `+`, when either operand is a
String and the other is a *scalar* (Int64, Float64, Bool or String — for
an Array or Map operand the array overload or a conversion error takes
precedence, see the counterexample), the result is the String made of the
left operand's text followed by the right operand's text; otherwise a
Float64 operand promotes the sum to Float64, with
`Int64 a + Float64 b = float(a) + b`; otherwise two Int64 operands give
their Int64 sum. -/
theorem addOperator_promotion_amended :
    (∀ (s : String) (v : Value) (t : String),
       (v.kind = .KInt64 ∨ v.kind = .KFloat64 ∨ v.kind = .KBool ∨ v.kind = .KString) →
       convertToString v = .ok t →
       addOperator (.VStr s) v = .ok (.VStr (s ++ t)) ∧
       addOperator v (.VStr s) = .ok (.VStr (t ++ s))) ∧
    (∀ (a : Int) (b : Rat),
       addOperator (.VInt a) (.VFloat b) = .ok (.VFloat ((a : Rat) + b))) ∧
    (∀ (a : Rat) (b : Int),
       addOperator (.VFloat a) (.VInt b) = .ok (.VFloat (a + (b : Rat)))) ∧
    (∀ (a b : Rat), addOperator (.VFloat a) (.VFloat b) = .ok (.VFloat (a + b))) ∧
    (∀ (a b : Int), addOperator (.VInt a) (.VInt b) = .ok (.VInt (a + b))) := by
  refine ⟨?_, ?_, ?_, ?_, ?_⟩
  · intro s v t hk ht
    cases v <;> simp [Value.kind] at hk <;>
      simp_all [addOperator, convertToString, Value.kind]
  · intro a b; simp [addOperator, convertToFloat, Value.kind]
  · intro a b; simp [addOperator, convertToFloat, Value.kind]
  · intro a b; simp [addOperator, convertToFloat, Value.kind]
  · intro a b; simp [addOperator, Value.kind]

/-- Claim C5, witness: the amended statement applied at `"a" + 1`,
`1 + "a"`, `2 + 0.5` and `3 + 4`. -/
theorem addOperator_promotion_amended_witness :
    (addOperator (.VStr "a") (.VInt 1) = .ok (.VStr "a1") ∧
     addOperator (.VInt 1) (.VStr "a") = .ok (.VStr "1a")) ∧
    addOperator (.VInt 2) (.VFloat (1 / 2 : Rat)) =
      .ok (.VFloat ((2 : Rat) + (1 / 2 : Rat))) ∧
    addOperator (.VInt 3) (.VInt 4) = .ok (.VInt 7) :=
  ⟨addOperator_promotion_amended.1 "a" (.VInt 1) "1" (Or.inl rfl) rfl,
   addOperator_promotion_amended.2.1 2 (1 / 2 : Rat),
   addOperator_promotion_amended.2.2.2.2 3 4⟩

/-- Claim C5, counterexample: the claim quantifies over all values `v`,
but for an Array operand the array overload of `+` fires first, so
`"a" + [1]` is the Array `["a", 1]`, not a String. -/
theorem addOperator_string_plus_array_counterexample :
    addOperator (.VStr "a") (.VArr [.VInt 1]) =
      .ok (.VArr [.VStr "a", .VInt 1]) ∧
    (Value.VArr [.VStr "a", .VInt 1]).kind = .KSlice ∧
    Kind.KSlice ≠ Kind.KString :=
  ⟨rfl, rfl, by decide⟩

/-- Claim C6: `+` on arrays: a non-array left operand is prepended to an
array right operand, a non-array right operand is appended to an array
left operand, and two arrays concatenate; in particular
`[1,2] + [3,4] = [1,2,3,4]`, `1 + [2,3] = [1,2,3]` and
`[2,3] + 1 = [2,3,1]`. -/
theorem addOperator_array_overload :
    (∀ (v : Value) (l : List Value), v.kind ≠ .KSlice →
       addOperator v (.VArr l) = .ok (.VArr (v :: l))) ∧
    (∀ (v : Value) (l : List Value), v.kind ≠ .KSlice →
       addOperator (.VArr l) v = .ok (.VArr (l ++ [v]))) ∧
    (∀ (l₁ l₂ : List Value),
       addOperator (.VArr l₁) (.VArr l₂) = .ok (.VArr (l₁ ++ l₂))) ∧
    addOperator (.VArr [.VInt 1, .VInt 2]) (.VArr [.VInt 3, .VInt 4]) =
      .ok (.VArr [.VInt 1, .VInt 2, .VInt 3, .VInt 4]) ∧
    addOperator (.VInt 1) (.VArr [.VInt 2, .VInt 3]) =
      .ok (.VArr [.VInt 1, .VInt 2, .VInt 3]) ∧
    addOperator (.VArr [.VInt 2, .VInt 3]) (.VInt 1) =
      .ok (.VArr [.VInt 2, .VInt 3, .VInt 1]) := by
  refine ⟨?_, ?_, ?_, rfl, rfl, rfl⟩
  · intro v l hk
    cases v <;> simp [Value.kind] at hk ⊢ <;> simp [addOperator, opOnArray, Value.kind]
  · intro v l hk
    cases v <;> simp [Value.kind] at hk ⊢ <;> simp [addOperator, opOnArray, Value.kind]
  · intro l₁ l₂; simp [addOperator, opOnArray, Value.kind]

/-- Claim C6, witness: the quantified parts applied at `true + [2]` and
`[2] + true`. -/
theorem addOperator_array_overload_witness :
    addOperator (.VBool true) (.VArr [.VInt 2]) =
      .ok (.VArr [.VBool true, .VInt 2]) ∧
    addOperator (.VArr [.VInt 2]) (.VBool true) =
      .ok (.VArr [.VInt 2, .VBool true]) :=
  ⟨addOperator_array_overload.1 (.VBool true) [.VInt 2] (by simp [Value.kind]),
   addOperator_array_overload.2.1 (.VBool true) [.VInt 2] (by simp [Value.kind])⟩

/-- Claim C10: `&&` and `||` do not short-circuit — `Binary.Evaluate`
always evaluates both operands first.  If the left operand of `&&`
evaluates to `false`, the right operand is still evaluated: the final
context is the one its evaluation produced (so its side effects occurred)
and an error it raises is returned; symmetrically for `||` with a `true`
left operand. -/
theorem binary_no_short_circuit
    (l r : Expr) (ctx ctx₁ ctx₂ : Ctx) (res : Except String Value) :
    (evalExpr l ctx = (.ok (.VBool false), ctx₁) →
      evalExpr r ctx₁ = (res, ctx₂) →
      (∀ e, res = .error e → evalExpr (.binary .LAND l r) ctx = (.error e, ctx₂)) ∧
      (∀ b, res = .ok (.VBool b) →
        evalExpr (.binary .LAND l r) ctx = (.ok (.VBool false), ctx₂))) ∧
    (evalExpr l ctx = (.ok (.VBool true), ctx₁) →
      evalExpr r ctx₁ = (res, ctx₂) →
      (∀ e, res = .error e → evalExpr (.binary .LOR l r) ctx = (.error e, ctx₂)) ∧
      (∀ b, res = .ok (.VBool b) →
        evalExpr (.binary .LOR l r) ctx = (.ok (.VBool true), ctx₂))) := by
  constructor
  · intro hl hr
    constructor
    · intro e he
      subst he
      simp [evalExpr, hl, hr]
    · intro b hb
      subst hb
      simp [evalExpr, hl, hr, binaryDispatch, Token.isComparison, Token.isNumGroup, Value.kind]
  · intro hl hr
    constructor
    · intro e he
      subst he
      simp [evalExpr, hl, hr]
    · intro b hb
      subst hb
      simp [evalExpr, hl, hr, binaryDispatch, Token.isComparison, Token.isNumGroup, Value.kind]

/-- Claim C10, witness: `false && (x++ > 0)` with `x = 0` evaluates to
`false`, yet the increment on the right side has happened (`x = 1`
afterwards). -/
theorem binary_no_short_circuit_witness :
    (evalExpr (.binary .LAND (.basicLit "false" .BOOLEAN)
        (.binary .GTR (.incDec .INC (.ident "x")) (.basicLit "0" .INTEGER)))
        ctxX0).1 = .ok (.VBool false) ∧
    ((evalExpr (.binary .LAND (.basicLit "false" .BOOLEAN)
        (.binary .GTR (.incDec .INC (.ident "x")) (.basicLit "0" .INTEGER)))
        ctxX0).2.getVariable "x").1 = .VInt 1 := by
  have h := ((binary_no_short_circuit (.basicLit "false" .BOOLEAN)
      (.binary .GTR (.incDec .INC (.ident "x")) (.basicLit "0" .INTEGER))
      ctxX0 _ _ _).1 rfl rfl).2 true rfl
  rw [h]
  exact ⟨rfl, rfl⟩

/-- Claim C1 (amended): for a chained comparison `a op₁ b op₂ c` the parser
does synthesize the logical-AND `(a op₁ b) && (b op₂ c)` — re-using the
very same middle operand node `b` on both sides — so the chain evaluates
to the same boolean as that conjunction, and `2 < 5 < 3` is `false`; but
the shared middle operand is evaluated once per comparison, i.e. twice
(witnessed by the ghost trace counting two reads of `b`), not once. -/
theorem chained_comparison_amended :
    (∀ (a b c : Expr) (op₁ op₂ : Token),
       op₁.isComparison = true → op₂.isComparison = true →
       parseChain a [(op₁, b), (op₂, c)] =
         .binary .LAND (.binary op₁ a b) (.binary op₂ b c)) ∧
    (evalExpr chain253 (renewContext [])).1 = .ok (.VBool false) ∧
    (evalExpr chainIdentB ctxB5).1 = .ok (.VBool false) ∧
    (evalExpr chainIdentB ctxB5).2.trace.count "b" = 2 := by
  refine ⟨?_, rfl, rfl, rfl⟩
  intro a b c op₁ op₂ h₁ h₂
  simp [parseChain, parseChainLoop, nextIsComparison, h₁, h₂]

/-- Claim C1, witness: the parser part of the amended statement applied at
the chain `2 < x++ < 3`, whose parse is the conjunction sharing the
`x++` node. -/
theorem chained_comparison_amended_witness :
    parseChain (.basicLit "2" .INTEGER)
        [(.LSS, .incDec .INC (.ident "x")), (.LSS, .basicLit "3" .INTEGER)] =
      .binary .LAND
        (.binary .LSS (.basicLit "2" .INTEGER) (.incDec .INC (.ident "x")))
        (.binary .LSS (.incDec .INC (.ident "x")) (.basicLit "3" .INTEGER)) :=
  chained_comparison_amended.1 (.basicLit "2" .INTEGER)
    (.incDec .INC (.ident "x")) (.basicLit "3" .INTEGER) .LSS .LSS rfl rfl

/-- Claim C1, counterexample: the claim as stated says the middle operand
is evaluated exactly once even when it has a side effect.  For the chain
`2 < x++ < 3` with `x = 4`: the first comparison evaluates `x++` (to `5`,
storing `5`), the second evaluates the same node again (to `6`), so the
chain yields `false` with `x = 6` afterwards — the increment ran twice,
where a single evaluation would have left `x = 5`. -/
theorem chained_comparison_double_eval :
    (evalExpr chainSideEffect ctxX4).1 = .ok (.VBool false) ∧
    ((evalExpr chainSideEffect ctxX4).2.getVariable "x").1 = .VInt 6 ∧
    Value.VInt 6 ≠ Value.VInt 5 :=
  ⟨rfl, rfl, by simp⟩

/-- Claim C3: with a non-empty loop stack and `l` the current loop's
index, a pending break at index `≤ l` makes `ShouldBreak` true for both
the block check and the loop check; a pending continue at an index `< l`
does too; a pending continue exactly at `l` makes only the block check
(`fromLoop = false`) true — the loop's own keep-iterating check
(`fromLoop = true`) stays false when no break is pending. -/
theorem shouldBreak_pending_spec (xc : Ctx) (l : Int)
    (hne : 0 < xc.loopsLabel.length)
    (hl : currentLoop xc = l) :
    ((0 ≤ xc.breakAt ∧ xc.breakAt ≤ l) → ∀ fl, shouldBreak xc fl = true) ∧
    ((0 ≤ xc.continueAt ∧ xc.continueAt < l) → ∀ fl, shouldBreak xc fl = true) ∧
    ((0 ≤ xc.continueAt ∧ xc.continueAt = l) →
       shouldBreak xc false = true ∧
       (xc.breakAt < 0 → shouldBreak xc true = false)) := by
  refine ⟨?_, ?_, ?_⟩
  · intro h fl
    cases fl <;> (simp [shouldBreak, hne, hl]; omega)
  · intro h fl
    cases fl <;> (simp [shouldBreak, hne, hl]; omega)
  · intro h
    constructor
    · simp [shouldBreak, hne, hl]
      omega
    · intro hlt
      simp [shouldBreak, hne, hl]
      omega

/-- Claim C3, witness: the theorem applied at a two-loop context with a
pending break at the outer loop, and at a one-loop context with a pending
continue at the current loop. -/
theorem shouldBreak_pending_spec_witness :
    (shouldBreak ctxBreakOuter true = true ∧ shouldBreak ctxBreakOuter false = true) ∧
    (shouldBreak ctxContinueHere false = true ∧ shouldBreak ctxContinueHere true = false) :=
  ⟨⟨(shouldBreak_pending_spec ctxBreakOuter 1 (by decide) (by decide)).1
      (by decide) true,
    (shouldBreak_pending_spec ctxBreakOuter 1 (by decide) (by decide)).1
      (by decide) false⟩,
   ⟨((shouldBreak_pending_spec ctxContinueHere 0 (by decide) (by decide)).2.2
      (by decide)).1,
    ((shouldBreak_pending_spec ctxContinueHere 0 (by decide) (by decide)).2.2
      (by decide)).2 (by decide)⟩⟩

/-- Helper: expression evaluation never touches the standard error
stream. -/
theorem evalExpr_stderrLog (e : Expr) : ∀ ctx : Ctx,
    (evalExpr e ctx).2.stderrLog = ctx.stderrLog := by
  induction e with
  | basicLit lit kind =>
    intro ctx
    cases kind <;> simp only [evalExpr] <;> split <;> rfl
  | ident name => intro ctx; rfl
  | binary op l r ihl ihr =>
    intro ctx
    simp only [evalExpr]
    rcases hL : evalExpr l ctx with ⟨resL, ctxL⟩
    have hL' := ihl ctx
    rw [hL] at hL'
    cases resL with
    | error e => simpa using hL'
    | ok vl =>
      rcases hR : evalExpr r ctxL with ⟨resR, ctxR⟩
      have hR' := ihr ctxL
      rw [hR] at hR'
      cases resR <;> simp_all
  | incDec op x ih =>
    intro ctx
    simp only [evalExpr]
    rcases hX : evalExpr x ctx with ⟨resX, ctxX⟩
    have hX' := ih ctx
    rw [hX] at hX'
    simp only at hX'
    cases resX with
    | error e => simpa using hX'
    | ok v =>
      cases hS : incDecStep op v with
      | error e => simp [hS, hX']
      | ok v' => cases x <;> simp [hS, Ctx.setVariable, hX']

/-- Helper: statement evaluation never touches the standard error
stream. -/
theorem evalStmt_stderrLog (s : Stmt) (ctx : Ctx) :
    (evalStmt s ctx).1.stderrLog = ctx.stderrLog := by
  cases s with
  | assign name op value =>
    simp only [evalStmt]
    rcases hV : evalExpr value ctx with ⟨resV, ctxV⟩
    have hV' := evalExpr_stderrLog value ctx
    rw [hV] at hV'
    cases resV with
    | error e => simpa using hV'
    | ok i =>
      simp only at hV'
      cases op <;> simp only [] <;> (try split) <;> (try split) <;>
        simp_all [Ctx.setVariable]
  | exprWrapper x =>
    simp only [evalStmt]
    rcases hX : evalExpr x ctx with ⟨resX, ctxX⟩
    have hX' := evalExpr_stderrLog x ctx
    rw [hX] at hX'
    cases resX <;> simpa using hX'

/-- Helper: block evaluation never touches the standard error stream. -/
theorem evalBlock_stderrLog (stmts : List Stmt) : ∀ ctx : Ctx,
    (evalBlock stmts ctx).1.stderrLog = ctx.stderrLog := by
  induction stmts with
  | nil => intro ctx; rfl
  | cons s rest ih =>
    intro ctx
    simp only [evalBlock]
    rcases hS : evalStmt s ctx with ⟨ctxS, errS⟩
    have hS' := evalStmt_stderrLog s ctx
    rw [hS] at hS'
    cases errS with
    | some e => simpa using hS'
    | none =>
      simp only at hS'
      by_cases hB : shouldBreak ctxS false = true
      · simp [hB, hS']
      · simp only [Bool.not_eq_true] at hB
        simp [hB, (ih ctxS).trans hS']

/-- Helper: binding target arguments never touches the standard error
stream. -/
theorem bindTargetArgs_stderrLog (args : List Value) (ctx : Ctx) :
    (bindTargetArgs ctx args).stderrLog = ctx.stderrLog := by
  unfold bindTargetArgs
  generalize args.enum = l
  simp only [Ctx.setVariable]
  induction l generalizing ctx with
  | nil => rfl
  | cons p rest ih => simpa using ih _

/-- Helper: `Target.Execute` never touches the standard error stream. -/
theorem targetExecute_stderrLog (t : Target) (ctx : Ctx) (args : List Value) :
    (targetExecute t ctx args).1.stderrLog = ctx.stderrLog := by
  unfold targetExecute
  rcases hB : evalBlock t.insts (bindTargetArgs (enterBlock ctx false "").1 args)
    with ⟨ctxB, errB⟩
  have h₁ : (enterBlock ctx false "").1.stderrLog = ctx.stderrLog := rfl
  have h₂ := bindTargetArgs_stderrLog args (enterBlock ctx false "").1
  have h₃ := evalBlock_stderrLog t.insts (bindTargetArgs (enterBlock ctx false "").1 args)
  rw [hB] at h₃
  simp only at h₃
  simp only [hB]
  have h₄ : (exitBlock ctxB (-1)).stderrLog = ctxB.stderrLog := rfl
  rw [h₄, h₃, h₂, h₁]

/-- Helper: the deferred finalize loop only appends to the standard error
stream. -/
theorem runFinalize_stderrLog_mono (finals : List Target) : ∀ (ctx : Ctx)
    (s : String), s ∈ ctx.stderrLog → s ∈ (runFinalize finals ctx).stderrLog := by
  induction finals with
  | nil => intro ctx s hs; simpa [runFinalize] using hs
  | cons f rest ih =>
    intro ctx s hs
    simp only [runFinalize]
    rcases hF : targetExecute f ctx [] with ⟨ctxF, errF⟩
    have hF' := targetExecute_stderrLog f ctx []
    rw [hF] at hF'
    have hF'' : ctxF.stderrLog = ctx.stderrLog := by simpa using hF'
    cases errF with
    | some e =>
      refine ih _ s ?_
      simp only [List.mem_append]
      exact Or.inl (by rw [hF'']; exact hs)
    | none =>
      refine ih _ s ?_
      rw [hF'']
      exact hs

/-- Claim C2: in `ExecuteWithTarget`, once the top-level statements and
the initialize targets have succeeded, the requested-target run is
followed by the deferred finalize loop on **every** return path: the call
returns exactly the main run's error (or success) with the finalize loop
folded over the whole finalize list afterwards — so every declared
finalize target executes whether the main run failed or succeeded — and a
finalize target that itself fails only contributes a warning line to the
standard error stream, never the returned error. -/
theorem executeWithTarget_finalize_discipline
    (c : CookProgram) (env : List (String × String))
    (pargs : List (String × Value)) (names : List String)
    (ctxA ctxB ctx₂ : Ctx) (merr : Option String)
    (hins : evalBlock c.insts
        (pargs.foldl (fun acc p => acc.setVariable p.1 p.2) (renewContext env)) =
        (ctxA, none))
    (hinit : runInits c.initializeTargets ctxA = (ctxB, none))
    (hmain : runSelection c names ctxB = (ctx₂, merr)) :
    executeWithTarget c env pargs names =
      (runFinalize c.finalizeTargets ctx₂, merr) ∧
    (∀ f rest ctx₃ fe, c.finalizeTargets = f :: rest →
        targetExecute f ctx₂ [] = (ctx₃, some fe) →
        ("Error while executing finalize target " ++ f.name ++ ": " ++ fe) ∈
          (executeWithTarget c env pargs names).1.stderrLog) := by
  have hexec : executeWithTarget c env pargs names =
      (runFinalize c.finalizeTargets ctx₂, merr) := by
    unfold executeWithTarget
    simp only []
    rw [hins]
    simp only []
    rw [hinit]
    simp only []
    rw [hmain]
  refine ⟨hexec, ?_⟩
  intro f rest ctx₃ fe hfin hft
  rw [hexec]
  simp only
  rw [hfin]
  simp only [runFinalize, hft]
  refine runFinalize_stderrLog_mono rest _ _ ?_
  simp

/-- Claim C2, witness: the theorem applied to a program whose requested
target `build` fails with an unsupported-operator error and whose first
finalize target fails the same way: the call still returns the `build`
error, and the finalize failure shows up as a warning on the diagnostic
stream. -/
theorem executeWithTarget_finalize_discipline_witness :
    (executeWithTarget progFinalize [] [] ["build"]).2 =
      some "unsupported operator on the values" ∧
    ("Error while executing finalize target finalize: unsupported operator on the values") ∈
      (executeWithTarget progFinalize [] [] ["build"]).1.stderrLog := by
  have h := executeWithTarget_finalize_discipline progFinalize [] [] ["build"]
      _ _ _ _ rfl rfl rfl
  exact ⟨by rw [h.1], h.2 _ _ _ _ rfl rfl⟩

/-- Helper: under a positive step that does not overshoot the opposite
endpoint, the integer normalization of `Interval.Evaluate` coincides with
the claim's inward-adjustment normalization. -/
theorem intervalNormInt_eq_claim (a b st : Int) (aInc bInc : Bool)
    (hst : 1 ≤ st)
    (hov : aInc = false → a ≠ b → (a < b → a + st ≤ b) ∧ (b < a → b < a - st)) :
    intervalNormInt a b st aInc bInc = claimNormInt a b st aInc bInc := by
  by_cases hab : a = b
  · subst hab
    cases aInc <;> cases bInc <;>
      simp [intervalNormInt, claimNormInt] <;> split_ifs <;> simp <;> omega
  · have hov' := fun h => hov h hab
    cases aInc <;> cases bInc <;>
      simp [intervalNormInt, claimNormInt, hab] <;>
      split_ifs <;> simp_all <;> omega

/-- Helper: the float companion of `intervalNormInt_eq_claim`. -/
theorem intervalNormFloat_eq_claim (a b st : Rat) (aInc bInc : Bool)
    (hst : 0 < st)
    (hov : aInc = false → a ≠ b → (a < b → a + st ≤ b) ∧ (b < a → b < a - st)) :
    intervalNormFloat a b st aInc bInc = claimNormFloat a b st aInc bInc := by
  unfold intervalNormFloat claimNormFloat
  by_cases hab : a = b
  · cases aInc <;> cases bInc <;> simp [hab]
  · rcases lt_or_gt_of_ne hab with hlt | hgt
    · have hdir : ¬ a > b := not_lt.mpr (le_of_lt hlt)
      cases aInc with
      | false =>
        have h1 : a + st ≤ b := ((hov rfl hab).1) hlt
        have h2 : ¬ (a + st > b) := not_lt.mpr h1
        cases bInc <;>
          simp [hab, hdir, h2, sub_eq_add_neg, neg_one_mul, one_mul]
      | true =>
        cases bInc <;>
          simp [hab, hdir, sub_eq_add_neg, neg_one_mul, one_mul]
    · have hdir : a > b := hgt
      cases aInc with
      | false =>
        have h1 : b < a - st := ((hov rfl hab).2) hgt
        have h2 : a + -st > b := by linarith [sub_eq_add_neg a st]
        cases bInc <;>
          simp [hab, hdir, h1, h2, sub_eq_add_neg, neg_one_mul, one_mul]
      | true =>
        cases bInc <;>
          simp [hab, hdir, sub_eq_add_neg, neg_one_mul, one_mul]

/-- Claim C4 (amended): `Interval.Evaluate` normalizes to a
`(start, end, step)` triple.  Whenever an endpoint is exclusive and the
two bounds are equal, the result is the empty sequence, with no further
side condition.  For distinct bounds the exclusive start is always moved
inward by one step; the exclusive end is moved inward by one step in the
direction of iteration provided the step does not overshoot the opposite
endpoint (it is compared against the *adjusted* start, see the
counterexample for the overshooting case).  This holds in both the
integer and the float branch; `(1..10)` iterates `2,…,9` and
`(5..5]` iterates nothing. -/
theorem interval_normalization_amended :
    (∀ (aE bE : Expr) (a b : Int) (aInc bInc : Bool) (ctx ctx₁ ctx₂ : Ctx),
       evalExpr aE ctx = (.ok (.VInt a), ctx₁) →
       evalExpr bE ctx₁ = (.ok (.VInt b), ctx₂) →
       (aInc = false ∨ bInc = false) → a = b →
       intervalEvaluate aE bE none aInc bInc ctx = (.ok (.ints []), ctx₂)) ∧
    (∀ (aE bE stE : Expr) (a b st : Int) (aInc bInc : Bool)
       (ctx ctx₁ ctx₂ ctx₃ : Ctx),
       evalExpr aE ctx = (.ok (.VInt a), ctx₁) →
       evalExpr bE ctx₁ = (.ok (.VInt b), ctx₂) →
       evalExpr stE ctx₂ = (.ok (.VInt st), ctx₃) →
       1 ≤ st →
       (aInc = false → a ≠ b → (a < b → a + st ≤ b) ∧ (b < a → b < a - st)) →
       intervalEvaluate aE bE (some stE) aInc bInc ctx =
         (.ok (.ints (claimNormInt a b st aInc bInc)), ctx₃)) ∧
    (∀ (aE bE : Expr) (a b : Int) (aInc bInc : Bool) (ctx ctx₁ ctx₂ : Ctx),
       evalExpr aE ctx = (.ok (.VInt a), ctx₁) →
       evalExpr bE ctx₁ = (.ok (.VInt b), ctx₂) →
       (aInc = false → a ≠ b → (a < b → a + 1 ≤ b) ∧ (b < a → b < a - 1)) →
       intervalEvaluate aE bE none aInc bInc ctx =
         (.ok (.ints (claimNormInt a b 1 aInc bInc)), ctx₂)) ∧
    (∀ (aE bE stE : Expr) (a b st : Rat) (aInc bInc : Bool)
       (ctx ctx₁ ctx₂ ctx₃ : Ctx),
       evalExpr aE ctx = (.ok (.VFloat a), ctx₁) →
       evalExpr bE ctx₁ = (.ok (.VFloat b), ctx₂) →
       evalExpr stE ctx₂ = (.ok (.VFloat st), ctx₃) →
       0 < st →
       (aInc = false → a ≠ b → (a < b → a + st ≤ b) ∧ (b < a → b < a - st)) →
       intervalEvaluate aE bE (some stE) aInc bInc ctx =
         (.ok (.floats (claimNormFloat a b st aInc bInc)), ctx₃)) ∧
    (intervalEvaluate (.basicLit "1" .INTEGER) (.basicLit "10" .INTEGER) none
        false false (renewContext []) =
      (.ok (.ints [2, 9, 1]), renewContext []) ∧
     intervalIterInts [2, 9, 1] = [2, 3, 4, 5, 6, 7, 8, 9]) ∧
    (intervalEvaluate (.basicLit "5" .INTEGER) (.basicLit "5" .INTEGER) none
        false true (renewContext []) =
      (.ok (.ints []), renewContext []) ∧
     intervalIterInts [] = []) := by
  refine ⟨?_, ?_, ?_, ?_, ⟨rfl, rfl⟩, ⟨rfl, rfl⟩⟩
  · intro aE bE a b aInc bInc ctx ctx₁ ctx₂ hA hB hx hab
    simp [intervalEvaluate, hA, hB, Value.kind, toIntLossy, convertToInt,
      intervalNormInt, hx, hab]
  · intro aE bE stE a b st aInc bInc ctx ctx₁ ctx₂ ctx₃ hA hB hSt hst hov
    simp [intervalEvaluate, hA, hB, hSt, Value.kind, toIntLossy, convertToInt]
    rw [intervalNormInt_eq_claim a b st aInc bInc hst hov]
  · intro aE bE a b aInc bInc ctx ctx₁ ctx₂ hA hB hov
    simp [intervalEvaluate, hA, hB, Value.kind, toIntLossy, convertToInt]
    rw [intervalNormInt_eq_claim a b 1 aInc bInc le_rfl hov]
  · intro aE bE stE a b st aInc bInc ctx ctx₁ ctx₂ ctx₃ hA hB hSt hst hov
    simp [intervalEvaluate, hA, hB, hSt, Value.kind, toFloatLossy, convertToFloat]
    rw [intervalNormFloat_eq_claim a b st aInc bInc hst hov]

/-- Claim C4, witness: the amended statement applied at the interval
`(10..1):2` (downward, both exclusive, step 2), at the empty case
`(7..7)`, and at a float interval `(lo..hi):st` over bound float
values `1/2, 5/2` with step `1/2`. -/
theorem interval_normalization_amended_witness :
    intervalEvaluate (.basicLit "10" .INTEGER) (.basicLit "1" .INTEGER)
        (some (.basicLit "2" .INTEGER)) false false (renewContext []) =
      (.ok (.ints (claimNormInt 10 1 2 false false)), renewContext []) ∧
    intervalEvaluate (.basicLit "7" .INTEGER) (.basicLit "7" .INTEGER) none
        false false (renewContext []) =
      (.ok (.ints []), renewContext []) ∧
    (intervalEvaluate (.ident "lo") (.ident "hi") (some (.ident "st"))
        false false ctxFloat).1 =
      .ok (.floats (claimNormFloat (1 / 2 : Rat) (5 / 2 : Rat) (1 / 2 : Rat)
        false false)) :=
  ⟨interval_normalization_amended.2.1 (.basicLit "10" .INTEGER)
      (.basicLit "1" .INTEGER) (.basicLit "2" .INTEGER) 10 1 2 false false
      _ _ _ _ rfl rfl rfl (by decide) (by decide),
   interval_normalization_amended.1 (.basicLit "7" .INTEGER)
      (.basicLit "7" .INTEGER) 7 7 false false _ _ _ rfl rfl (Or.inl rfl) rfl,
   by
    rw [interval_normalization_amended.2.2.2.1 (.ident "lo") (.ident "hi")
      (.ident "st") (1 / 2 : Rat) (5 / 2 : Rat) (1 / 2 : Rat) false false
      ctxFloat _ _ _ rfl rfl rfl (by norm_num) (by norm_num)]⟩

/-- Claim C4, counterexample: for the interval `(2..1)` (downward, both
endpoints exclusive, step 1) the code adjusts the exclusive start inward
to `1`, but then compares the *adjusted* start with the raw end
(`1 > 1` fails) and moves the exclusive end **down** to `0` — away from
the interval — yielding the triple `[1, 0, 1]` and the iteration `1, 0`,
while the claim's inward adjustment in the direction of iteration
(downward, from 2 toward 1) demands end `1 + 1 = 2`. -/
theorem interval_exclusive_end_counterexample :
    intervalEvaluate (.basicLit "2" .INTEGER) (.basicLit "1" .INTEGER) none
        false false (renewContext []) =
      (.ok (.ints [1, 0, 1]), renewContext []) ∧
    claimNormInt 2 1 1 false false = [1, 2, 1] ∧
    ([1, 0, 1] : List Int) ≠ [1, 2, 1] ∧
    intervalIterInts [1, 0, 1] = [1, 0] :=
  ⟨rfl, by decide, by decide, rfl⟩

end Cook
